import Mathlib

/-!
Verification of the HSM client contract exercised by the ZymbitSecureIoT
demo scripts.

The repository's scripts (`ct_crypto.py`, `ct_lockunlock.py`,
`ct_signverify.py`, `ct_getrandom.py`, `ct_getRandomFile.py`,
`ct_perimeter_detect.py`, `ct_sensor_encdec.py`) are thin callers into the
vendor `zymkey.client` API.  The vendor library itself is not part of the
sources, so its operations are modelled here from the specification's
client-side interface contract (each such definition is marked
`Modelled from the spec:`).  The script-level computations (the random-block
accumulation loop of `ct_crypto.py`, the `bytearray(temperature_c)` plaintext
of `ct_sensor_encdec.py`) are embedded directly from the source.
-/

namespace Zymkey

/-- Injective encoding of a byte list into a natural number, via iterated
`Nat.pair`.  Used to build the symbolic models of the module's authenticated
encryption and signatures. -/
def encodeList : List Nat → Nat
  | [] => 0
  | a :: l => Nat.pair a (encodeList l) + 1

/-- Inverse of `encodeList`: every natural number decodes to a byte list. -/
def decodeList : Nat → List Nat
  | 0 => []
  | n + 1 => (Nat.unpair n).1 :: decodeList (Nat.unpair n).2
decreasing_by exact Nat.lt_succ_of_le (Nat.unpair_right_le n)

theorem decodeList_encodeList (l : List Nat) : decodeList (encodeList l) = l := by
  induction l with
  | nil => rw [encodeList, decodeList]
  | cons a l ih =>
    rw [encodeList, decodeList, Nat.unpair_pair]
    exact congrArg (a :: ·) ih

theorem encodeList_decodeList (n : Nat) : encodeList (decodeList n) = n := by
  induction n using Nat.strong_induction_on with
  | _ n ih =>
    match n with
    | 0 => rw [decodeList, encodeList]
    | m + 1 =>
      rw [decodeList, encodeList,
        ih (Nat.unpair m).2 (Nat.lt_succ_of_le (Nat.unpair_right_le m)),
        Nat.pair_unpair]

/-- The error taxonomy of the client contract (spec section 7). -/
inductive HSMError
  | hardwareError
  | ioError
  | verificationError
  | integrityError
deriving DecidableEq

/-- Modelled from the spec: the ideal unforgeable MAC the module attaches to
a ciphertext, keyed by the module's key context; modelled as the injective
pairing of the key context with the encoded payload, so that a tag matches
exactly when both the key context and the payload are the ones the module
produced. -/
def mac (ctx payload : Nat) : Nat := Nat.pair ctx payload

/-- Modelled from the spec: `zymkey.client.lock` (missing vendor code);
"lock(plaintext) -> ciphertext" under the module-held key context `ctx`.
The result is a single natural number, reflecting that the host must treat
the ciphertext as an opaque blob internally tagged with the metadata the
module needs for matching unlock. -/
def lock (ctx : Nat) (x : List Nat) : Nat :=
  Nat.pair (Nat.pair ctx (encodeList x)) (mac ctx (encodeList x))

/-- Modelled from the spec: `zymkey.client.unlock` (missing vendor code);
"unlock(ciphertext) -> plaintext", failing with `IntegrityError` if the
ciphertext was tampered or produced by a different key context.  The module
recovers the embedded key context and payload and recomputes the tag. -/
def unlock (ctx c : Nat) : Except HSMError (List Nat) :=
  if (Nat.unpair (Nat.unpair c).1).1 = ctx ∧
      (Nat.unpair c).2 = mac ctx (Nat.unpair (Nat.unpair c).1).2 then
    .ok (decodeList (Nat.unpair (Nat.unpair c).1).2)
  else
    .error .integrityError

theorem unlock_lock_aux (ctx : Nat) (x : List Nat) :
    unlock ctx (lock ctx x) = .ok x := by
  simp [unlock, lock, Nat.unpair_pair, decodeList_encodeList]

/-- C1: Round-trip law for the module-held symmetric key: for every byte
sequence `x`, `unlock (lock x) = x`, so the decrypted data in the demo
scripts equals the original plaintext byte-for-byte. -/
theorem unlock_lock_roundtrip (ctx : Nat) (x : List Nat) :
    unlock ctx (lock ctx x) = .ok x :=
  unlock_lock_aux ctx x

/-- C7: any ciphertext that is not an output of `lock` under the key context
`ctx` — a tampered blob, or one produced under a different key context —
makes `unlock` fail with `IntegrityError` instead of returning plaintext. -/
theorem unlock_tampered (ctx c : Nat) (h : ∀ x, c ≠ lock ctx x) :
    unlock ctx c = .error .integrityError := by
  rw [unlock, if_neg]
  intro ⟨h1, h2⟩
  apply h (decodeList (Nat.unpair (Nat.unpair c).1).2)
  simp only [mac] at h2
  rw [lock, encodeList_decodeList]
  simp only [mac]
  rw [← h2]
  have hband : (Nat.unpair c).2 = (Nat.unpair c).1 := by
    rw [h2, ← h1]
    exact Nat.pair_unpair _
  nth_rewrite 1 [hband]
  exact (Nat.pair_unpair c).symm

/-- Ciphertexts produced under a different key context are never outputs of
`lock` under the current one (the first component recovered from the opaque
blob is the key context). -/
theorem lock_ctx_ne (ctx ctx2 : Nat) (y : List Nat) (hne : ctx2 ≠ ctx) :
    ∀ x, lock ctx2 y ≠ lock ctx x := by
  intro x hx
  have h1 := congrArg (fun n => (Nat.unpair (Nat.unpair n).1).1) hx
  simp only [lock, Nat.unpair_pair] at h1
  exact hne h1

/-- Witness for C7: unlocking under key context `0` a ciphertext produced
under key context `1` fails with `IntegrityError`. -/
theorem unlock_tampered_witness :
    unlock 0 (lock 1 []) = .error .integrityError :=
  unlock_tampered 0 (lock 1 []) (lock_ctx_ne 0 1 [] (by decide))

/-- Modelled from the spec: `zymkey.client.sign` (missing vendor code);
`sign(message) -> signature` using the module-internal private key `key`;
the signature is an ideal unforgeable blob, modelled as the injective
pairing of the key with the encoded message digest. -/
def sign (key : Nat) (m : List Nat) : Nat := Nat.pair key (encodeList m)

/-- Modelled from the spec: `zymkey.client.verify` (missing vendor code);
succeeds (returns without error) iff the signature is valid for the message
under the corresponding key, and otherwise raises `VerificationError` —
it never returns a boolean. -/
def verify (key : Nat) (m : List Nat) (sig : Nat) : Except HSMError Unit :=
  if sig = sign key m then .ok () else .error .verificationError

/-- C2: `verify` succeeds exactly on the valid signature for the message
under the module's key; a genuine signature verifies, and for every mutated
message the same signature makes `verify` fail with `VerificationError`
(the error is raised, never a silent false return). -/
theorem verify_sound_complete (key : Nat) (m : List Nat) :
    verify key m (sign key m) = .ok () ∧
    (∀ sig, verify key m sig = .ok () ↔ sig = sign key m) ∧
    (∀ m2, m2 ≠ m →
      verify key m2 (sign key m) = .error .verificationError) := by
  refine ⟨by simp [verify], fun sig => ?_, fun m2 hne => ?_⟩
  · constructor
    · intro hok
      by_contra hne
      simp [verify, hne] at hok
    · intro hsig
      simp [verify, hsig]
  · rw [verify, if_neg]
    intro hpair
    apply hne
    have h2 := congrArg (fun n => decodeList (Nat.unpair n).2) hpair
    simp [sign, Nat.unpair_pair, decodeList_encodeList] at h2
    exact h2.symm

/-- Witness for C2, at the data of `ct_signverify.py`: the genuine signature
of a message verifies, and the signature fails on a mutated message. -/
theorem verify_sound_complete_witness :
    verify 0 [7, 2] (sign 0 [7, 2]) = .ok () ∧
    verify 0 [7, 5] (sign 0 [7, 2]) = .error .verificationError :=
  ⟨(verify_sound_complete 0 [7, 2]).1,
    (verify_sound_complete 0 [7, 2]).2.2 [7, 5] (by decide)⟩

/-- The module's client-visible state for the entropy source: the hardware
entropy stream (a byte per position), the position already consumed, and
whether the module is reachable over the bus. -/
structure HSMState where
  entropy : Nat → Nat
  pos : Nat
  reachable : Bool

/-- Modelled from the spec: `zymkey.client.get_random` (missing vendor
code); returns `n` freshly drawn bytes from the hardware entropy stream and
advances it, and fails with `HardwareError` if the module is unreachable or
refuses the request — it never returns a short or empty result. -/
def get_random (s : HSMState) (n : Nat) : Except HSMError (List Nat × HSMState) :=
  if s.reachable then
    .ok ((List.range n).map (fun i => s.entropy (s.pos + i) % 256),
      { s with pos := s.pos + n })
  else
    .error .hardwareError

/-- C4: `get_random n` returns exactly `n` bytes for every requested byte
count `n` whenever the module is reachable, and fails with `HardwareError`
(rather than returning a short or empty result) when it is not. -/
theorem get_random_spec (e : Nat → Nat) (p n : Nat) :
    (∃ l s2, get_random ⟨e, p, true⟩ n = .ok (l, s2) ∧ l.length = n) ∧
    get_random ⟨e, p, false⟩ n = .error .hardwareError := by
  refine ⟨⟨(List.range n).map (fun i => e (p + i) % 256),
    ⟨e, p + n, true⟩, ?_, by simp⟩, ?_⟩
  · simp [get_random]
  · simp [get_random]

/-- Modelled from the spec: `zymkey.client.create_random_file` (missing
vendor code); writes `n` random bytes to the filesystem path `path`
(creating or overwriting the file), failing with `IOError` on write failure
and `HardwareError` on entropy failure.  The filesystem is a map from paths
to file contents and `writable` says whether the write can succeed. -/
def create_random_file (s : HSMState) (fs : String → Option (List Nat))
    (writable : Bool) (path : String) (n : Nat) :
    Except HSMError ((String → Option (List Nat)) × HSMState) :=
  if !s.reachable then
    .error .hardwareError
  else if !writable then
    .error .ioError
  else
    .ok (fun q => if q = path then
        some ((List.range n).map (fun i => s.entropy (s.pos + i) % 256))
      else fs q,
      { s with pos := s.pos + n })

/-- C5: `create_random_file path n` writes a file of exactly `n` raw random
bytes at `path` (in particular `n = 1048576` yields a 1,048,576-byte file),
failing with `IOError` on write failure and `HardwareError` on entropy
failure. -/
theorem create_random_file_spec (e : Nat → Nat) (p n : Nat)
    (fs : String → Option (List Nat)) (path : String) :
    (∃ bytes fs2 s2,
      create_random_file ⟨e, p, true⟩ fs true path n = .ok (fs2, s2) ∧
      fs2 path = some bytes ∧ bytes.length = n) ∧
    create_random_file ⟨e, p, true⟩ fs false path n = .error .ioError ∧
    (∀ w, create_random_file ⟨e, p, false⟩ fs w path n =
      .error .hardwareError) := by
  refine ⟨⟨(List.range n).map (fun i => e (p + i) % 256),
    fun q => if q = path then
      some ((List.range n).map (fun i => e (p + i) % 256)) else fs q,
    ⟨e, p + n, true⟩, ?_, ?_, ?_⟩, ?_, fun w => ?_⟩
  · simp [create_random_file]
  · simp
  · simp
  · simp [create_random_file]
  · simp [create_random_file]

/-- The perimeter-detection record: the list of pending tamper events
(empty in the `CLEARED` state). -/
structure PerimeterInfo where
  events : List Nat
deriving DecidableEq

/-- The empty/default record reported in the `CLEARED` state. -/
def emptyPerimeterInfo : PerimeterInfo := ⟨[]⟩

/-- Modelled from the spec: `zymkey.client.clear_perimeter_detect_info`
(missing vendor code); resets the perimeter state to `CLEARED`, discarding
any pending event. -/
def clear_perimeter_detect_info (_s : PerimeterInfo) : PerimeterInfo :=
  emptyPerimeterInfo

/-- Modelled from the spec: `zymkey.client.get_perimeter_detect_info`
(missing vendor code); non-blocking read of the current perimeter state. -/
def get_perimeter_detect_info (s : PerimeterInfo) : PerimeterInfo := s

/-- A physical tamper stimulus on channel `e`: moves the state to
`EVENT_PENDING` by latching the event. -/
def tamperStimulus (s : PerimeterInfo) (e : Nat) : PerimeterInfo :=
  ⟨s.events ++ [e]⟩

/-- C6: immediately after `clear_perimeter_detect_info`,
`get_perimeter_detect_info` returns the empty/default `CLEARED` record,
whatever events were pending before — in particular after a tamper
stimulus. -/
theorem clear_then_get_default (s : PerimeterInfo) :
    get_perimeter_detect_info (clear_perimeter_detect_info s) =
      emptyPerimeterInfo ∧
    (∀ e, get_perimeter_detect_info
      (clear_perimeter_detect_info (tamperStimulus s e)) =
        emptyPerimeterInfo) :=
  ⟨rfl, fun _ => rfl⟩

/-- Scanning loop of the blocking wait: at each discrete time unit, check the
tamper stimulus; return the event the moment it fires, or `none` once the
remaining observation window is exhausted.  The first component of the result
is the time at which the call returns. -/
def waitFrom (stim : Nat → Option PerimeterInfo) (t fuel : Nat) :
    Nat × Option PerimeterInfo :=
  match fuel with
  | 0 => (t, none)
  | fuel + 1 =>
    match stim t with
    | some ev => (t, some ev)
    | none => waitFrom stim (t + 1) fuel

/-- Modelled from the spec: `zymkey.client.wait_for_perimeter_event`
(missing vendor code); blocks until an event fires or the timeout elapses,
returning `None` on timeout.  Time is discrete: `stim t` is the event the
perimeter fires at time unit `t` (if any), and the result pairs the return
time with the returned record. -/
def wait_for_perimeter_event (stim : Nat → Option PerimeterInfo)
    (timeout : Nat) : Nat × Option PerimeterInfo :=
  waitFrom stim 0 timeout

theorem waitFrom_none (stim : Nat → Option PerimeterInfo) (fuel : Nat) :
    ∀ t, (∀ u, u < fuel → stim (t + u) = none) →
      waitFrom stim t fuel = (t + fuel, none) := by
  induction fuel with
  | zero => intro t _; rfl
  | succ f ih =>
    intro t hq
    have h0 : stim t = none := by simpa using hq 0 (Nat.succ_pos f)
    rw [waitFrom, h0, ih (t + 1) (fun u hu => by
      rw [Nat.add_right_comm]
      exact hq (u + 1) (Nat.succ_lt_succ hu))]
    rw [Nat.add_right_comm, Nat.add_assoc]

theorem waitFrom_fires (stim : Nat → Option PerimeterInfo) (fuel : Nat) :
    ∀ t u, u < fuel → stim (t + u) ≠ none →
      (waitFrom stim t fuel).1 < t + fuel ∧ (waitFrom stim t fuel).2 ≠ none := by
  induction fuel with
  | zero => intro t u hu; exact absurd hu (Nat.not_lt_zero u)
  | succ f ih =>
    intro t u hu hs
    rw [waitFrom]
    cases hst : stim t with
    | some ev => exact ⟨Nat.lt_add_of_pos_right (Nat.succ_pos f), by simp⟩
    | none =>
      match u with
      | 0 => exact absurd (by simpa using hst) (by simpa using hs)
      | v + 1 =>
        have hv : stim (t + 1 + v) ≠ none := by
          rw [Nat.add_right_comm]; exact hs
        obtain ⟨hlt, hne⟩ := ih (t + 1) v (Nat.lt_of_succ_lt_succ hu) hv
        refine ⟨?_, hne⟩
        calc (waitFrom stim (t + 1) f).1 < t + 1 + f := hlt
          _ = t + (f + 1) := by rw [Nat.add_right_comm, Nat.add_assoc]

/-- C3: with no tamper stimulus during the observation window,
`wait_for_perimeter_event timeout` returns `None` exactly when the timeout
has elapsed, not before; and when an event does fire before the timeout the
call returns an event record (not `None`) strictly before the timeout. -/
theorem wait_for_perimeter_event_spec (stim : Nat → Option PerimeterInfo)
    (timeout : Nat) :
    ((∀ t, t < timeout → stim t = none) →
      wait_for_perimeter_event stim timeout = (timeout, none)) ∧
    (∀ t, t < timeout → stim t ≠ none →
      (wait_for_perimeter_event stim timeout).1 < timeout ∧
      (wait_for_perimeter_event stim timeout).2 ≠ none) := by
  constructor
  · intro hq
    have h := waitFrom_none stim timeout 0 (fun u hu => by simpa using hq u hu)
    simpa [wait_for_perimeter_event] using h
  · intro t ht hs
    have h := waitFrom_fires stim timeout 0 t ht (by simpa using hs)
    simpa [wait_for_perimeter_event] using h

/-- Witness for C3: a quiet perimeter makes the wait return `None` at the
full two-unit timeout, and a stimulus at time zero makes it return an event
record strictly before the timeout. -/
theorem wait_for_perimeter_event_spec_witness :
    wait_for_perimeter_event (fun _ => none) 2 = (2, none) ∧
    ((wait_for_perimeter_event (fun _ => some emptyPerimeterInfo) 2).1 < 2 ∧
      (wait_for_perimeter_event (fun _ => some emptyPerimeterInfo) 2).2 ≠
        none) :=
  ⟨(wait_for_perimeter_event_spec (fun _ => none) 2).1 (fun _ _ => rfl),
    (wait_for_perimeter_event_spec (fun _ => some emptyPerimeterInfo) 2).2
      0 (by decide) (by simp)⟩

/-- `bs = 512` in `ct_crypto.py`: the size of each random block. -/
def ct_crypto_bs : Nat := 512

/-- `num_blocks = 256` in `ct_crypto.py`. -/
def ct_crypto_num_blocks : Nat := 256

/-- The byte count printed by `ct_crypto.py`:
`'... ({!r} bytes)...'.format(bs * num_blocks)`. -/
def ct_crypto_printed_count : Nat := ct_crypto_bs * ct_crypto_num_blocks

/-- The accumulation loop of `ct_crypto.py`:
`for x in range(k): random_bytes += zymkey.client.get_random(bs)`,
threading the module state through the calls. -/
def accumulateRandom (s : HSMState) : Nat → Except HSMError (List Nat × HSMState)
  | 0 => .ok ([], s)
  | k + 1 => do
    let (acc, s1) ← accumulateRandom s k
    let (blk, s2) ← get_random s1 ct_crypto_bs
    pure (acc ++ blk, s2)

/-- The `random_bytes` value of `ct_crypto.py` after its loop over
`range(num_blocks)`. -/
def ct_crypto_random_bytes (s : HSMState) :
    Except HSMError (List Nat × HSMState) :=
  accumulateRandom s ct_crypto_num_blocks

theorem accumulateRandom_length (e : Nat → Nat) :
    ∀ k p, ∃ l p2, accumulateRandom ⟨e, p, true⟩ k = .ok (l, ⟨e, p2, true⟩) ∧
      l.length = k * ct_crypto_bs := by
  intro k
  induction k with
  | zero => exact fun p => ⟨[], p, rfl, rfl⟩
  | succ k ih =>
    intro p
    obtain ⟨l, p2, hacc, hlen⟩ := ih p
    refine ⟨l ++ (List.range ct_crypto_bs).map (fun i => e (p2 + i) % 256),
      p2 + ct_crypto_bs, ?_, ?_⟩
    · rw [accumulateRandom, hacc]
      rfl
    · simp [hlen, Nat.succ_mul]

/-- C9: assuming each `get_random(bs)` call returns `bs` bytes, the random
data accumulated by `ct_crypto.py` before encryption has length exactly
`bs * num_blocks = 512 * 256 = 131072` bytes (128 KiB), not the 1 MB
(`1048576` bytes) stated in the script's comment; the printed byte count is
this same `131072`, and the subsequent lock/unlock round-trip check operates
on this 131,072-byte sequence. -/
theorem ct_crypto_random_bytes_length (e : Nat → Nat) (p : Nat) :
    ∃ l s2, ct_crypto_random_bytes ⟨e, p, true⟩ = .ok (l, s2) ∧
      l.length = ct_crypto_bs * ct_crypto_num_blocks ∧
      l.length = 131072 ∧
      ct_crypto_printed_count = 131072 ∧
      l.length ≠ 1048576 ∧
      (∀ ctx, unlock ctx (lock ctx l) = .ok l) := by
  obtain ⟨l, p2, hacc, hlen⟩ := accumulateRandom_length e ct_crypto_num_blocks p
  exact ⟨l, ⟨e, p2, true⟩, hacc, by rw [hlen, Nat.mul_comm],
    by rw [hlen]; rfl, rfl, by rw [hlen]; decide,
    fun ctx => unlock_lock_aux ctx l⟩

/-- `bytearray(temperature_c)` in `ct_sensor_encdec.py`: Python's
`bytearray` applied to an integer `n` constructs a zero-filled buffer of
`n` bytes. -/
def bytearrayOfNat (n : Nat) : List Nat := List.replicate n 0

/-- The plaintext `plain = bytearray(temperature_c)` that
`ct_sensor_encdec.py` passes to `lock`. -/
def ct_sensor_plain (temperature_c : Nat) : List Nat :=
  bytearrayOfNat temperature_c

/-- C10: the plaintext `ct_sensor_encdec.py` passes to `lock` is a
zero-filled buffer whose length equals the integer temperature reading, so
the encrypted payload consists of `temperature_c` zero bytes and never
encodes the temperature value itself; the script's `plain == plain_check`
comparison compares this zero-filled buffer against `unlock`'s output, and
it succeeds. -/
theorem ct_sensor_plain_spec (temperature_c ctx : Nat) :
    ct_sensor_plain temperature_c = List.replicate temperature_c 0 ∧
    (ct_sensor_plain temperature_c).length = temperature_c ∧
    (∀ b, b ∈ ct_sensor_plain temperature_c → b = 0) ∧
    unlock ctx (lock ctx (ct_sensor_plain temperature_c)) =
      .ok (ct_sensor_plain temperature_c) :=
  ⟨rfl, by simp [ct_sensor_plain, bytearrayOfNat],
    fun b hb => List.eq_of_mem_replicate hb,
    unlock_lock_aux ctx (ct_sensor_plain temperature_c)⟩

/-- Witness for C10 at a concrete reading of 3 degrees: the plaintext is
three zero bytes and the lock/unlock comparison succeeds. -/
theorem ct_sensor_plain_spec_witness :
    ct_sensor_plain 3 = List.replicate 3 0 ∧
    unlock 0 (lock 0 (ct_sensor_plain 3)) = .ok (ct_sensor_plain 3) :=
  ⟨(ct_sensor_plain_spec 3 0).1, (ct_sensor_plain_spec 3 0).2.2.2⟩

end Zymkey
